import Mathlib

/-!
Verification development for the chat-desktop backend (Python, src/backend).

The definitions below are a shallow embedding of the backend's streaming
orchestration layer: the SSE multiplexer in app.py, the three provider
adapters (my_anthropic.py, my_openai.py, my_llama.py), and the tool-use
state machines in mcp_client.py.  Asynchronous generators are embedded as
finite lists of produced items; nondeterministic readiness of concurrent
sources is embedded as an explicit schedule parameter; exceptions are
embedded as Option/Except values.
-/

namespace ChatDesktop

/-! ## JSON values (the shapes handled by json.dumps / json.loads) -/

/-- A JSON value, as produced by Python's json module.  Non-integral numbers
are kept as their raw source text (no claim in this development depends on
float semantics). -/
inductive JVal where
  | jnull
  | jbool (b : Bool)
  | jnum (n : Int)
  | jfloat (raw : String)
  | jstr (s : String)
  | jarr (xs : List JVal)
  | jobj (fields : List (String × JVal))

/-- Lowercase hex digit. -/
def hexDigit (n : Nat) : Char :=
  if n < 10 then Char.ofNat (48 + n) else Char.ofNat (87 + n)

/-- Four-digit lowercase hex, as in Python's json \uXXXX escapes. -/
def hex4 (n : Nat) : String :=
  String.mk [hexDigit (n / 4096 % 16), hexDigit (n / 256 % 16),
             hexDigit (n / 16 % 16), hexDigit (n % 16)]

/-- Escape one character the way json.dumps (ensure_ascii=True, the default)
does: named escapes for quote, backslash and control characters, \uXXXX for
other control and non-ASCII characters (surrogate pairs above U+FFFF). -/
def jsonEscapeChar (c : Char) : String :=
  if c = '"' then "\\\""
  else if c = '\\' then "\\\\"
  else if c = '\n' then "\\n"
  else if c = '\r' then "\\r"
  else if c = '\t' then "\\t"
  else if c.toNat = 8 then "\\b"
  else if c.toNat = 12 then "\\f"
  else if c.toNat < 32 then "\\u" ++ hex4 c.toNat
  else if c.toNat < 127 then String.mk [c]
  else if c.toNat < 65536 then "\\u" ++ hex4 c.toNat
  else
    let v := c.toNat - 65536
    "\\u" ++ hex4 (55296 + v / 1024) ++ "\\u" ++ hex4 (56320 + v % 1024)

/-- json.dumps rendering of a string literal. -/
def jsonEscapeString (s : String) : String :=
  "\"" ++ String.join (s.data.map jsonEscapeChar) ++ "\""

mutual

/-- json.dumps with Python's default separators (", " and ": "). -/
def jsonDumps : JVal → String
  | JVal.jnull => "null"
  | JVal.jbool true => "true"
  | JVal.jbool false => "false"
  | JVal.jnum n => toString n
  | JVal.jfloat raw => raw
  | JVal.jstr s => jsonEscapeString s
  | JVal.jarr xs => "[" ++ jsonDumpsElems xs ++ "]"
  | JVal.jobj fs => "\x7b" ++ jsonDumpsFields fs ++ "\x7d"

def jsonDumpsElems : List JVal → String
  | [] => ""
  | [x] => jsonDumps x
  | x :: y :: rest => jsonDumps x ++ ", " ++ jsonDumpsElems (y :: rest)

def jsonDumpsFields : List (String × JVal) → String
  | [] => ""
  | [(k, v)] => jsonEscapeString k ++ ": " ++ jsonDumps v
  | (k, v) :: p :: rest =>
      jsonEscapeString k ++ ": " ++ jsonDumps v ++ ", " ++ jsonDumpsFields (p :: rest)

end

/-! ## json.loads

A recursive-descent parser for the JSON subset Python's json.loads accepts
(strict mode: raw control characters in strings are rejected, leading zeros
in numbers are rejected).  Nesting recursion is bounded by a fuel argument;
jsonLoads supplies fuel larger than the input length, which is sufficient
because every recursive call consumes at least one input character.  Lone
UTF-16 surrogates (which Python tolerates) are not representable as Lean
characters and are treated as a parse failure; no code path modelled here
depends on them. -/

/-- The character left brace. -/
def lbrace : Char := Char.ofNat 123

/-- The character right brace. -/
def rbrace : Char := Char.ofNat 125

/-- Skip JSON whitespace. -/
def skipWs : List Char → List Char
  | c :: cs => if c = ' ' ∨ c = '\t' ∨ c = '\n' ∨ c = '\r' then skipWs cs else c :: cs
  | [] => []

/-- Value of a hex digit. -/
def hexVal (c : Char) : Option Nat :=
  if '0' ≤ c ∧ c ≤ '9' then some (c.toNat - 48)
  else if 'a' ≤ c ∧ c ≤ 'f' then some (c.toNat - 87)
  else if 'A' ≤ c ∧ c ≤ 'F' then some (c.toNat - 55)
  else none

/-- Parse exactly four hex digits. -/
def parseHex4 : List Char → Option (Nat × List Char)
  | a :: b :: c :: d :: rest =>
    match hexVal a, hexVal b, hexVal c, hexVal d with
    | some x, some y, some z, some w => some (4096 * x + 256 * y + 16 * z + w, rest)
    | _, _, _, _ => none
  | _ => none

/-- Decode one escape sequence (after the backslash). -/
def parseEscape : List Char → Option (Char × List Char)
  | [] => none
  | e :: cs =>
    if e = '"' then some ('"', cs)
    else if e = '\\' then some ('\\', cs)
    else if e = '/' then some ('/', cs)
    else if e = 'b' then some (Char.ofNat 8, cs)
    else if e = 'f' then some (Char.ofNat 12, cs)
    else if e = 'n' then some ('\n', cs)
    else if e = 'r' then some ('\r', cs)
    else if e = 't' then some ('\t', cs)
    else if e = 'u' then
      match parseHex4 cs with
      | none => none
      | some (n, cs2) =>
        if 55296 ≤ n ∧ n ≤ 56319 then
          match cs2 with
          | '\\' :: 'u' :: cs3 =>
            match parseHex4 cs3 with
            | some (m, cs4) =>
              if 56320 ≤ m ∧ m ≤ 57343 then
                some (Char.ofNat (65536 + (n - 55296) * 1024 + (m - 56320)), cs4)
              else none
            | none => none
          | _ => none
        else if 56320 ≤ n ∧ n ≤ 57343 then none
        else some (Char.ofNat n, cs2)
    else none

/-- Parse the body of a JSON string (after the opening quote). -/
def parseStringBody : Nat → List Char → Option (List Char × List Char)
  | 0, _ => none
  | _ + 1, [] => none
  | fuel + 1, c :: cs =>
    if c = '"' then some ([], cs)
    else if c = '\\' then
      match parseEscape cs with
      | none => none
      | some (d, cs2) =>
        match parseStringBody fuel cs2 with
        | none => none
        | some (s, rest) => some (d :: s, rest)
    else if c.toNat < 32 then none
    else
      match parseStringBody fuel cs with
      | none => none
      | some (s, rest) => some (c :: s, rest)

/-- Digits to a natural number. -/
def digitsToNat (ds : List Char) : Nat :=
  ds.foldl (fun a c => 10 * a + (c.toNat - 48)) 0

/-- Parse a JSON number.  Integral numbers become jnum; numbers with a
fraction or exponent part keep their raw text as jfloat. -/
def parseNumber (cs : List Char) : Option (JVal × List Char) :=
  let (neg, cs1) := match cs with
    | '-' :: r => (true, r)
    | _ => (false, cs)
  let (ds, cs2) := cs1.span Char.isDigit
  match ds with
  | [] => none
  | d0 :: drest =>
    if d0 = '0' ∧ drest ≠ [] then none
    else
      let (fracPart, cs3) := match cs2 with
        | '.' :: r =>
          let (fs, r2) := r.span Char.isDigit
          if fs = [] then ([], cs2) else ('.' :: fs, r2)
        | _ => ([], cs2)
      let (expPart, cs4) := match cs3 with
        | e :: r =>
          if e = 'e' ∨ e = 'E' then
            let (sgn, r1) := match r with
              | s :: r2 => if s = '+' ∨ s = '-' then ([s], r2) else ([], r)
              | [] => ([], r)
            let (es, r3) := r1.span Char.isDigit
            if es = [] then ([], cs3) else (e :: (sgn ++ es), r3)
          else ([], cs3)
        | [] => ([], cs3)
      if fracPart = [] ∧ expPart = [] then
        let n : Int := Int.ofNat (digitsToNat ds)
        some (JVal.jnum (if neg then -n else n), cs2)
      else
        let raw := String.mk ((if neg then ['-'] else []) ++ ds ++ fracPart ++ expPart)
        some (JVal.jfloat raw, cs4)

/-- Parser mode: a complete value, the members of an object (after the
opening brace, nonempty), or the elements of an array (after the opening
bracket, nonempty). -/
inductive PMode where
  | val
  | members
  | elems

/-- Recursive-descent JSON parsing (one function so that the recursion is
structural on the fuel and kernel-reducible).  In members/elems mode the
result is the jobj/jarr of the remaining members/elements. -/
def parseJ : Nat → PMode → List Char → Option (JVal × List Char)
  | 0, _, _ => none
  | fuel + 1, PMode.val, cs0 =>
    match skipWs cs0 with
    | [] => none
    | c :: rest =>
      if c = '"' then
        match parseStringBody (rest.length + 1) rest with
        | none => none
        | some (str, r) => some (JVal.jstr (String.mk str), r)
      else if c = lbrace then
        match skipWs rest with
        | d :: r2 =>
          if d = rbrace then some (JVal.jobj [], r2)
          else parseJ fuel PMode.members (skipWs rest)
        | [] => none
      else if c = '[' then
        match skipWs rest with
        | d :: r2 =>
          if d = ']' then some (JVal.jarr [], r2)
          else parseJ fuel PMode.elems (skipWs rest)
        | [] => none
      else
        match c :: rest with
        | 't' :: 'r' :: 'u' :: 'e' :: r => some (JVal.jbool true, r)
        | 'f' :: 'a' :: 'l' :: 's' :: 'e' :: r => some (JVal.jbool false, r)
        | 'n' :: 'u' :: 'l' :: 'l' :: r => some (JVal.jnull, r)
        | cs => parseNumber cs
  | fuel + 1, PMode.members, cs =>
    match skipWs cs with
    | c :: rest =>
      if c = '"' then
        match parseStringBody (rest.length + 1) rest with
        | none => none
        | some (k, r1) =>
          match skipWs r1 with
          | ':' :: r2 =>
            match parseJ fuel PMode.val r2 with
            | none => none
            | some (v, r3) =>
              match skipWs r3 with
              | ',' :: r4 =>
                (match parseJ fuel PMode.members r4 with
                 | some (JVal.jobj fs, r5) => some (JVal.jobj ((String.mk k, v) :: fs), r5)
                 | _ => none)
              | d :: r4 =>
                if d = rbrace then some (JVal.jobj [(String.mk k, v)], r4) else none
              | [] => none
          | _ => none
      else none
    | [] => none
  | fuel + 1, PMode.elems, cs =>
    match parseJ fuel PMode.val cs with
    | none => none
    | some (v, r1) =>
      match skipWs r1 with
      | ',' :: r2 =>
        (match parseJ fuel PMode.elems r2 with
         | some (JVal.jarr xs, r3) => some (JVal.jarr (v :: xs), r3)
         | _ => none)
      | ']' :: r2 => some (JVal.jarr [v], r2)
      | _ => none

/-- json.loads: parse a complete JSON document; trailing non-whitespace makes
the parse fail. -/
def jsonLoads (s : String) : Option JVal :=
  match parseJ (2 * s.length + 4) PMode.val s.data with
  | some (v, rest) => if skipWs rest = [] then some v else none
  | none => none

/-! ## app.py — the transport facade and the stream multiplexer

Generators are embedded as the finite sequences of the items they yield.
A backend client's response stream (as consumed by process_client_messages)
is a RawStream: the chunks it produces, followed by an optional exception
raised while fetching the next chunk (an exception terminates a Python
generator, so nothing can follow it). -/

/-- The keys of the module-level clients dictionary in app.py, in insertion
order: llama, anthropic, openai. -/
def clientKeys : List String := ["llama", "anthropic", "openai"]

/-- response_map in app.py, with dict.get's 'unknown' default. -/
def responseMap (clientId : String) : String :=
  if clientId = "llama" then "response1"
  else if clientId = "anthropic" then "response2"
  else if clientId = "openai" then "response3"
  else "unknown"

/-- format_sse_message: wraps a chunk in the SSE wire format
"data: " + json.dumps({model, chunk}) + two newlines.  (The str() coercion
branch for non-primitive chunks does not arise here: every chunk produced by
the modelled pipelines is already a string.) -/
def formatSSE (clientId chunk : String) : String :=
  "data: " ++
    jsonDumps (JVal.jobj [("model", JVal.jstr (responseMap clientId)),
                          ("chunk", JVal.jstr chunk)]) ++
    "\n\n"

/-- A backend client's stream: the chunks produced, then optionally the text
of an exception raised while fetching the next chunk. -/
abbrev RawStream := List String × Option String

/-- process_client_messages as the generator's yield sequence: every truthy
(nonempty) chunk is formatted; a failure anywhere while fetching from the
client is caught and converted into one formatted "Error: ..." message for
this client only, after which the generator ends. -/
def processClientMessages (clientId : String) (rs : RawStream) : List String :=
  (rs.1.filter (fun c => c ≠ "")).map (formatSSE clientId) ++
    (match rs.2 with
     | some e => [formatSSE clientId ("Error: " ++ e)]
     | none => [])

/-- A source as seen by merge_async_generators: items to be fetched one by
one, then an optional exception (raised by anext after the items). -/
abbrev Gen := List String × Option String

/-- One observable step of the multiplexer: an item yielded for a source, a
source removed because its generator is exhausted (StopAsyncIteration), or a
source removed because fetching from it raised (caught and logged; nothing
is yielded). -/
inductive TraceEv where
  | emit (src : Nat) (item : String)
  | exhaust (src : Nat)
  | errorDrop (src : Nat) (msg : String)
deriving DecidableEq

/-- Multiplexer state: slot i holds source i's remaining stream, or none
once the source has been removed from the live set. -/
abbrev MState := List (Option Gen)

/-- Steps a source can still take (one per item plus one terminal step). -/
def genMeasure : Option Gen → Nat
  | none => 0
  | some (items, _) => items.length + 1

/-- Total remaining steps of a multiplexer state. -/
def stMeasure : MState → Nat
  | [] => 0
  | o :: rest => genMeasure o + stMeasure rest

/-- The slot of source i: its remaining stream, or none once removed (or if
there never was a source i). -/
def slot (st : MState) (i : Nat) : Option Gen := st.getD i none

/-- Indices of the live sources (the pending_tasks keys). -/
def liveIdxs (st : MState) : List Nat :=
  (List.range st.length).filter (fun i => (slot st i).isSome)

/-- merge_async_generators: while the live set is nonempty, the schedule
picks which outstanding fetch completes first; an item is yielded if truthy
and the source is rescheduled; StopAsyncIteration removes the source;
any other exception is caught, logged, and the source is removed without
yielding anything.  Fuel bounds the recursion; stMeasure of the initial
state is always sufficient. -/
def mergeFrom (sched : Nat → Nat) : Nat → Nat → MState → List TraceEv
  | 0, _, _ => []
  | fuel + 1, t, st =>
    match liveIdxs st with
    | [] => []
    | j :: js =>
      let i := (j :: js).getD (sched t % (j :: js).length) 0
      match slot st i with
      | some (x :: rest, exc) =>
          (if x = "" then [] else [TraceEv.emit i x]) ++
            mergeFrom sched fuel (t + 1) (st.set i (some (rest, exc)))
      | some ([], some e) =>
          TraceEv.errorDrop i e :: mergeFrom sched fuel (t + 1) (st.set i none)
      | some ([], none) =>
          TraceEv.exhaust i :: mergeFrom sched fuel (t + 1) (st.set i none)
      | none => []
      -- the none branch is unreachable: i is drawn from liveIdxs st

/-- Run the multiplexer on a list of sources under a given readiness
schedule. -/
def mergeGens (sched : Nat → Nat) (gens : List Gen) : List TraceEv :=
  mergeFrom sched (stMeasure (gens.map some)) 0 (gens.map some)

/-- The items the merged stream yields for source i, in order. -/
def emitsOf (tr : List TraceEv) (i : Nat) : List String :=
  tr.filterMap (fun ev =>
    match ev with
    | TraceEv.emit j x => if j = i then some x else none
    | _ => none)

/-- Does this event remove source i from the live set? -/
def removesSrc (i : Nat) : TraceEv → Bool
  | TraceEv.exhaust j => j = i
  | TraceEv.errorDrop j _ => j = i
  | _ => false

/-- How many times source i is removed from the live set in a trace. -/
def removalCount (tr : List TraceEv) (i : Nat) : Nat :=
  tr.countP (removesSrc i)

/-- Safety: once source i has been removed from the live set, the rest of
the trace yields nothing for it. -/
def noEmitAfterRemoval (i : Nat) : List TraceEv → Prop
  | [] => True
  | ev :: tr => (removesSrc i ev = true → emitsOf tr i = []) ∧ noEmitAfterRemoval i tr

/-- The full app pipeline for C1: each requested (clientId, stream) pair is
wrapped by process_client_messages (which never raises), and the resulting
generators are merged. -/
def mergePipeline (sched : Nat → Nat) (srcs : List (String × RawStream)) :
    List TraceEv :=
  mergeGens sched (srcs.map (fun p => (processClientMessages p.1 p.2, none)))

/-- The outcome of the /chat-stream endpoint before any streaming happens:
either a synchronous HTTPException (status code, detail) or the list of
active windows, one concurrent adapter task being spawned per element. -/
def chatStream (message : String) (windows : Option (List String)) :
    Except (Nat × String) (List String) :=
  if message = "" then Except.error (400, "Message parameter is required")
  else
    match windows with
    | some ws =>
      if ws ≠ [] then
        let active := ws.filter (fun w => clientKeys.contains w)
        if active = [] then Except.error (400, "No valid window IDs provided")
        else Except.ok active
      else Except.ok clientKeys
    | none => Except.ok clientKeys

/-! ## mcp_client.py - tool descriptors, oracles and the three stream
processors

The capability provider (MCP Brave server) is embedded as a pure oracle
from tool name and arguments to a tool result; the vendor streams are
embedded as the finite lists of chunks they deliver. -/

/-- A tool call's input as delivered by the Anthropic stream: either already
structured, or a raw string (which process_anthropic_stream json.loads-es,
falling back to a query-wrapped object). -/
inductive TIn where
  | tstr (s : String)
  | tval (j : JVal)

/-- The str-input branch of process_anthropic_stream:
json.loads on string inputs, with the JSONDecodeError fallback
to a single-key query object. -/
def resolveToolInput : TIn → JVal
  | TIn.tval j => j
  | TIn.tstr s =>
    match jsonLoads s with
    | some j => j
    | none => JVal.jobj [("query", JVal.jstr s)]

/-- A tool_use content block of the Anthropic stream. -/
structure ToolUse where
  name : String
  input : TIn
  id : String

/-- A tool result as returned by MCPBraveServer.call_tool: the hasattr
chain in the source distinguishes objects exposing .content, objects
exposing .result, and everything else (stringified). -/
inductive ToolResult where
  | withContent (c : JVal)
  | withResult (r : JVal)
  | plain (s : String)

/-- The content-extraction chain applied to every tool result (content,
else result, else str(...)); JVal values are always JSON-serializable, so
the subsequent json.dumps try/except never fires in this embedding. -/
def extractToolResultContent : ToolResult → JVal
  | ToolResult.withContent c => c
  | ToolResult.withResult r => r
  | ToolResult.plain s => JVal.jstr s

/-- The capability provider as a pure oracle. -/
abbrev ToolOracle := String → JVal → ToolResult

/-- One chunk of the Anthropic vendor stream: a text delta, a message_stop
event (carrying the stop reason and the message's tool_use blocks), or any
other event type (ignored by the source). -/
inductive AnthChunk where
  | textDelta (s : String)
  | messageStop (stopReason : Option String) (toolUses : List ToolUse)
  | otherEv

/-- The per-turn messages list built by process_anthropic_stream. -/
inductive AMsg where
  | userMsg (content : String)
  | assistantToolCalls (calls : List ToolUse)
  | toolResultMsg (toolUseId : String) (content : JVal)

/-- Text deltas of a follow-up stream (its loop only handles
content_block_delta / text_delta chunks). -/
def textDeltaOf : AnthChunk → Option String
  | AnthChunk.textDelta s => some s
  | _ => none

/-- The chunks yielded while processing one tool round: per tool call, the
"[Using tool: ...]" marker, then (after the call) the
"[Tool results from ...]" marker. -/
def anthRoundYields (tus : List ToolUse) : List String :=
  (tus.map (fun tu =>
    ["
[Using tool: " ++ tu.name ++ "]
",
     "
[Tool results from " ++ tu.name ++ "]
"])).flatten

/-- The tool-result messages appended while processing one tool round (one
role-user tool_result message per tool call, in order). -/
def anthRoundMsgs (oracle : ToolOracle) (tus : List ToolUse) : List AMsg :=
  tus.map (fun tu =>
    AMsg.toolResultMsg tu.id
      (extractToolResultContent (oracle tu.name (resolveToolInput tu.input))))

/-- The chunk loop of process_anthropic_stream: text deltas are yielded;
a message_stop with stop_reason tool_use installs the message's tool_use
blocks; a nonempty current tool-call list triggers the tool round (append
the assistant tool-calls message, then per tool call yield the two markers,
invoke the oracle and append one tool-result message), then the follow-up
stream's text deltas are yielded and the loop continues on the remaining
chunks of the original stream. -/
def runAnth (oracle : ToolOracle) :
    List AnthChunk → List (List AnthChunk) → List ToolUse → List AMsg →
      (List String × List AMsg)
  | [], _, _, msgs => ([], msgs)
  | AnthChunk.textDelta s :: rest, fus, cur, msgs =>
    let r := runAnth oracle rest fus cur msgs
    (s :: r.1, r.2)
  | AnthChunk.otherEv :: rest, fus, cur, msgs => runAnth oracle rest fus cur msgs
  | AnthChunk.messageStop reason tus :: rest, fus, cur, msgs =>
    let cur1 := if reason = some "tool_use" then tus else cur
    match cur1 with
    | [] => runAnth oracle rest fus cur1 msgs
    | tu :: tus1 =>
      let round := tu :: tus1
      let msgs1 := msgs ++ [AMsg.assistantToolCalls round] ++ anthRoundMsgs oracle round
      let fuYields := (fus.headD []).filterMap textDeltaOf
      let r := runAnth oracle rest fus.tail [] msgs1
      (anthRoundYields round ++ fuYields ++ r.1, r.2)

/-- process_anthropic_stream on the happy path (connected, key present):
initial per-turn messages hold only the user query; followUps lists the
streams returned by the successive follow-up requests. -/
def processAnthropicStream (oracle : ToolOracle) (query : String)
    (chunks : List AnthChunk) (followUps : List (List AnthChunk)) :
    (List String × List AMsg) :=
  runAnth oracle chunks followUps [] [AMsg.userMsg query]

/-- One tool-call delta fragment of the OpenAI stream (delta.tool_calls
entry).  Absent fields are "", matching how the source collapses None and
"" through `x or ""` and `if x:`. -/
structure Frag where
  index : Nat
  id : String
  ty : String
  fname : String
  fargs : String
deriving DecidableEq

/-- An in-progress tool-call record (tool_calls_data entry). -/
structure ToolCallRec where
  id : String
  ty : String
  name : String
  args : String
deriving DecidableEq

/-- The else-branch of the fragment accumulator: truthy id/type/name
fields overwrite, truthy argument fragments append. -/
def updateToolCallRec (r : ToolCallRec) (d : Frag) : ToolCallRec :=
  ⟨if d.id ≠ "" then d.id else r.id,
   if d.ty ≠ "" then d.ty else r.ty,
   if d.fname ≠ "" then d.fname else r.name,
   if d.fargs ≠ "" then r.args ++ d.fargs else r.args⟩

/-- Processing of one tool-call delta (mcp_client.py lines 394-413): if the
record list is not yet longer than the fragment's index, a fresh record is
appended at the END of the list (regardless of the index value); otherwise
the record at position index is updated. -/
def oaStep (data : List ToolCallRec) (d : Frag) : List ToolCallRec :=
  if data.length ≤ d.index then
    data ++ [⟨d.id, d.ty, d.fname, d.fargs⟩]
  else
    data.set d.index (updateToolCallRec (data.getD d.index ⟨"", "", "", ""⟩) d)

/-- Reassembly of all tool-call fragments of a stream, in delivery order. -/
def buildToolCalls (ds : List Frag) : List ToolCallRec :=
  ds.foldl oaStep []

/-- One chunk of the OpenAI stream: optional content plus tool-call delta
fragments. -/
structure OAChunk where
  content : Option String
  toolCalls : List Frag

/-- The per-turn messages list built by process_openai_stream. -/
inductive OMsg where
  | system (content : String)
  | user (content : String)
  | assistantToolCalls (content : String) (calls : List ToolCallRec)
  | toolMsg (toolCallId : String) (content : String)

/-- json.loads of an accumulated arguments string, with the JSONDecodeError
fallback wrapping the raw text as a query object. -/
def oaParseArgs (s : String) : JVal :=
  match jsonLoads s with
  | some j => j
  | none => JVal.jobj [("query", JVal.jstr s)]

/-- Stringification of tool-result content for the role-tool message:
json.dumps unless it is already a string. -/
def oaStringifyContent : JVal → String
  | JVal.jstr s => s
  | v => jsonDumps v

/-- The truthy content chunks of the OpenAI stream, in order. -/
def oaContents (chunks : List OAChunk) : List String :=
  chunks.filterMap (fun c =>
    match c.content with
    | some s => if s = "" then none else some s
    | none => none)

/-- All tool-call delta fragments of the stream, in delivery order. -/
def oaFrags (chunks : List OAChunk) : List Frag :=
  (chunks.map OAChunk.toolCalls).flatten

/-- Chunks yielded while processing the collected tool calls. -/
def oaRoundYields (data : List ToolCallRec) : List String :=
  (data.map (fun tc =>
    ["
[Using tool: " ++ tc.name ++ "]
",
     "
[Tool results from " ++ tc.name ++ "]
"])).flatten

/-- The role-tool messages appended while processing the collected tool
calls (one per record, in order). -/
def oaRoundMsgs (oracle : ToolOracle) (data : List ToolCallRec) : List OMsg :=
  data.map (fun tc =>
    OMsg.toolMsg tc.id
      (oaStringifyContent
        (extractToolResultContent (oracle tc.name (oaParseArgs tc.args)))))

/-- process_openai_stream on the exception-free path: stream the truthy
content chunks while folding tool-call fragments; if any tool calls were
collected, append the assistant message (carrying the accumulated content
and the tool_calls records), process each tool call (two marker yields and
one role-tool message each), then stream the follow-up request's truthy
content chunks.  With no tool calls, nothing is appended beyond the two
initial messages. -/
def processOpenaiStream (oracle : ToolOracle) (systemPrompt query : String)
    (chunks : List OAChunk) (followUp : List (Option String)) :
    (List String × List OMsg) :=
  let contents := oaContents chunks
  let fullResponse := String.join contents
  let data := buildToolCalls (oaFrags chunks)
  let msgs0 := [OMsg.system systemPrompt, OMsg.user query]
  match data with
  | [] => (contents, msgs0)
  | tc :: tcs =>
    let fuYields := followUp.filterMap (fun c =>
      match c with
      | some s => if s = "" then none else some s
      | none => none)
    (contents ++ oaRoundYields (tc :: tcs) ++ fuYields,
     msgs0 ++ [OMsg.assistantToolCalls fullResponse (tc :: tcs)] ++
       oaRoundMsgs oracle (tc :: tcs))

/-! ### process_llama_stream (prompt-synthesized tool use) -/

/-- If pat is a leading pattern of cs, return the remainder. -/
def dropPattern : List Char → List Char → Option (List Char)
  | [], cs => some cs
  | _ :: _, [] => none
  | p :: ps, c :: cs => if c = p then dropPattern ps cs else none

/-- Scanner for Python's str.split with a nonempty separator: scan left to
right, splitting at each non-overlapping separator occurrence.  Fuel keeps
the recursion structural (input length + 1 always suffices: every step
consumes at least one character). -/
def splitCharsAux (sep : List Char) : Nat → List Char → List Char → List (List Char)
  | _, acc, [] => [acc.reverse]
  | 0, acc, cs => [acc.reverse ++ cs]
  | fuel + 1, acc, c :: cs =>
    match dropPattern sep (c :: cs) with
    | some rest => acc.reverse :: splitCharsAux sep fuel [] rest
    | none => splitCharsAux sep fuel (c :: acc) cs

/-- Python's str.split(sep) for a nonempty separator. -/
def pySplit (s sep : String) : List String :=
  (splitCharsAux sep.data (s.data.length + 1) [] s.data).map String.mk

/-- Python's str.strip(): remove leading and trailing whitespace. -/
def pyStrip (s : String) : String :=
  String.mk (((s.data.dropWhile Char.isWhitespace).reverse.dropWhile
    Char.isWhitespace).reverse)

/-- Python's s[:n] (by code point). -/
def pyTake (s : String) (n : Nat) : String := String.mk (s.data.take n)

/-- Python's s[n:] (by code point). -/
def pyDrop (s : String) (n : Nat) : String := String.mk (s.data.drop n)

/-- Python's substring containment (sub in s, for nonempty sub). -/
def pyContains (s sub : String) : Bool :=
  decide (2 ≤ (pySplit s sub).length)

/-- json_response.get("response", ""): the response field of a decoded
line, with "" when absent.  (A present non-string field would crash the
source's += with a TypeError; that path is not exercised and is embedded
as "".) -/
def getRespField : JVal → String
  | JVal.jobj fields =>
    match (fields.reverse).lookup "response" with
    | some (JVal.jstr s) => s
    | some _ => ""
    | none => ""
  | _ => ""

/-- Index of the last occurrence of a character. -/
def lastIdxOf (c : Char) (cs : List Char) : Option Nat :=
  match cs.reverse.indexOf? c with
  | some k => some (cs.length - 1 - k)
  | none => none

/-- Greedy brace regex search within one newline-free segment: the match
runs from the first left brace that precedes the segment's last right
brace, to that last right brace. -/
def braceSearchSeg (seg : List Char) : Option (List Char) :=
  match seg.indexOf? lbrace, lastIdxOf rbrace seg with
  | some i, some j => if i < j then some ((seg.drop i).take (j - i + 1)) else none
  | _, _ => none

/-- First segment with a match wins. -/
def braceSearchSegs : List (List Char) → Option (List Char)
  | [] => none
  | seg :: rest =>
    match braceSearchSeg seg with
    | some m => some m
    | none => braceSearchSegs rest

/-- re.search of a greedy brace pattern (the dot does not match newline, so
segments between newlines are scanned left to right). -/
def regexBraceSearch (s : String) : Option String :=
  match braceSearchSegs (s.data.splitOn '
') with
  | some cs => some (String.mk cs)
  | none => none

/-- The tool-call extraction attempt process_llama_stream runs on the
accumulated buffer: the literal-pattern containment test, Python split
element [1] after "I need to use " (an IndexError on a missing element is
caught by the enclosing except and yields no tool call), the name/params
split, the brace regex, and json.loads (a JSONDecodeError yields no tool
call yet). -/
def llamaExtractTool (buffer : String) : Option (String × JVal) :=
  if pyContains buffer "I need to use " && pyContains buffer " with these parameters: " then
    match (pySplit buffer "I need to use ").get? 1 with
    | none => none
    | some toolParts =>
      let segs := pySplit toolParts " with these parameters: "
      match segs.get? 1 with
      | none => none
      | some paramsTail =>
        let toolName := pyStrip (segs.getD 0 "")
        let paramsText := pyStrip paramsTail
        match regexBraceSearch paramsText with
        | none => none
        | some jsonText =>
          match jsonLoads jsonText with
          | some params => some (toolName, params)
          | none => none
  else none

/-- Truthy contents of the follow-up completion request's lines. -/
def llamaFollowYields (followLines : List String) : List String :=
  followLines.filterMap (fun l =>
    if l = "" then none
    else
      match jsonLoads l with
      | some j =>
        let c := getRespField j
        if c = "" then none else some c
      | none => none)

/-- The line loop of process_llama_stream: decode each truthy line, grow
the buffer, attempt tool extraction; on success yield the two tool markers,
invoke the oracle once, stream the follow-up request, break out of the
loop, and (after the loop) yield the still-uncleared buffer; otherwise
release a 25-character chunk whenever more than 50 unmatched characters
accumulate.  The second component collects the executed tool calls. -/
def llamaLoop (oracle : ToolOracle) (followLines : List String) :
    List String → String → (List String × List (String × JVal))
  | [], buffer => (if buffer = "" then [] else [buffer], [])
  | line :: rest, buffer =>
    if line = "" then llamaLoop oracle followLines rest buffer
    else
      match jsonLoads line with
      | none => llamaLoop oracle followLines rest buffer
      | some j =>
        let buffer1 := buffer ++ getRespField j
        match llamaExtractTool buffer1 with
        | some (toolName, params) =>
          let _ := extractToolResultContent (oracle toolName params)
          (("
[Using tool: " ++ toolName ++ "]
") ::
             ("
[Tool results from " ++ toolName ++ "]
") ::
             (llamaFollowYields followLines ++
               (if buffer1 = "" then [] else [buffer1])),
           [(toolName, params)])
        | none =>
          if 50 < buffer1.length then
            let r := llamaLoop oracle followLines rest (pyDrop buffer1 25)
            (pyTake buffer1 25 :: r.1, r.2)
          else
            llamaLoop oracle followLines rest buffer1

/-- process_llama_stream's streaming loop, from an empty buffer. -/
def processLlamaStream (oracle : ToolOracle) (lines followLines : List String) :
    (List String × List (String × JVal)) :=
  llamaLoop oracle followLines lines ""

/-! ## Adapters (my_anthropic.py, my_openai.py, my_llama.py)

Conversation messages are (role, content) pairs.  A turn's backend
interaction is embedded as the chunks delivered before an optional
exception (a Python generator cannot produce anything after raising). -/

/-- my_anthropic.get_mcp_response_stream: accumulate every received text
into full_response, yield the truthy ones; on normal completion append the
assistant message carrying full_response; on an exception append (and
yield) only the error message. -/
def anthGetMcpResponseStream (messages : List (String × String))
    (chunks : List String) (exc : Option String) :
    (List String × List (String × String)) :=
  let yields := chunks.filter (fun c => c ≠ "")
  let fullResponse := chunks.foldl (fun acc t => acc ++ t) ""
  match exc with
  | none => (yields, messages ++ [("assistant", fullResponse)])
  | some e =>
    let errorMessage := "Error getting MCP response: " ++ e
    (yields ++ [errorMessage], messages ++ [("assistant", errorMessage)])

/-- my_openai.get_openai_response (the synchronous no-tool path): yield
every non-None delta content (empty strings included), append the joined
response on completion, or append and yield the error message on failure. -/
def openaiGetResponse (messages : List (String × String))
    (contents : List (Option String)) (exc : Option String) :
    (List String × List (String × String)) :=
  let collected := contents.filterMap id
  match exc with
  | none => (collected, messages ++ [("assistant", String.join collected)])
  | some e =>
    let errorMessage := "Error getting OpenAI response: " ++ e
    (collected ++ [errorMessage], messages ++ [("assistant", errorMessage)])

/-- my_openai.get_mcp_response_stream: accumulate and yield the truthy
received texts; append full_response on completion, the error message on
failure. -/
def openaiGetMcpResponseStream (messages : List (String × String))
    (chunks : List String) (exc : Option String) :
    (List String × List (String × String)) :=
  let yields := chunks.filter (fun c => c ≠ "")
  let fullResponse := String.join yields
  match exc with
  | none => (yields, messages ++ [("assistant", fullResponse)])
  | some e =>
    let errorMessage := "Error getting MCP response for OpenAI: " ++ e
    (yields ++ [errorMessage], messages ++ [("assistant", errorMessage)])

/-- my_llama.get_mcp_response_stream (same shape, llama error prefix). -/
def llamaGetMcpResponseStream (history : List (String × String))
    (chunks : List String) (exc : Option String) :
    (List String × List (String × String)) :=
  let yields := chunks.filter (fun c => c ≠ "")
  let fullResponse := String.join yields
  match exc with
  | none => (yields, history ++ [("assistant", fullResponse)])
  | some e =>
    let errorMessage := "Error getting MCP response for Llama: " ++ e
    (yields ++ [errorMessage], history ++ [("assistant", errorMessage)])

/-- my_llama.get_llama_response (the direct synchronous path): truthy lines
are decoded (a JSONDecodeError skips the line) and their response fields
yielded; on completion the joined response is appended; a
requests.RequestException is logged and RE-RAISED, leaving
conversation_history untouched and yielding no error item.  The result is
(yields delivered, final history, re-raised exception). -/
def getLlamaResponse (history : List (String × String))
    (lines : List String) (exc : Option String) :
    (List String × List (String × String) × Option String) :=
  let contents := lines.filterMap (fun l =>
    if l = "" then none
    else
      match jsonLoads l with
      | some j => some (getRespField j)
      | none => none)
  match exc with
  | none => (contents, history ++ [("assistant", String.join contents)], none)
  | some e => (contents, history, some e)

/-! ## OpenaiClient conversation lifecycle (C6) -/

/-- Every statement in my_openai.py that touches self.messages, as an
abstract operation on the conversation. -/
inductive OpenaiOp where
  | updateUser (m : String)
  | syncSuccess (contents : List (Option String))
  | syncFailure (contents : List (Option String)) (e : String)
  | mcpSuccess (chunks : List String)
  | mcpFailure (chunks : List String) (e : String)
  | mcpCancelled (chunks : List String)

/-- Apply one operation to the conversation. -/
def openaiApply (msgs : List (String × String)) : OpenaiOp → List (String × String)
  | OpenaiOp.updateUser m => msgs ++ [("user", m)]
  | OpenaiOp.syncSuccess cs => (openaiGetResponse msgs cs none).2
  | OpenaiOp.syncFailure cs e => (openaiGetResponse msgs cs (some e)).2
  | OpenaiOp.mcpSuccess ch => (openaiGetMcpResponseStream msgs ch none).2
  | OpenaiOp.mcpFailure ch e => (openaiGetMcpResponseStream msgs ch (some e)).2
  | OpenaiOp.mcpCancelled ch =>
    let partialResp := String.join (ch.filter (fun c => c ≠ ""))
    if partialResp = "" then msgs else msgs ++ [("assistant", partialResp)]

/-- OpenaiClient.__init__: the conversation starts with the system-prompt
message. -/
def openaiClientMessagesInit (systemPrompt : String) : List (String × String) :=
  [("system", systemPrompt)]

/-! ## Constructors and the BRAVE_API_KEY requirement (C10) -/

/-- The process environment variables the constructors read. -/
structure Env where
  braveKey : Option String
  anthropicKey : Option String
  openaiKey : Option String

/-- MCPBraveServer.__init__: reads BRAVE_API_KEY with default "" and raises
ValueError when the key is falsy. -/
def mcpBraveServerNew (env : Env) : Except String Unit :=
  let key := env.braveKey.getD ""
  if key = "" then Except.error "Missing required Brave API key" else Except.ok ()

/-- MCPClient.__init__: the api-key bookkeeping and client-dictionary setup
never raise; the only raising step is instantiating MCPBraveServer. -/
def mcpClientNew (env : Env) (_apiKeys : List (String × Option String)) :
    Except String Unit :=
  mcpBraveServerNew env

/-- AnthropicClient.__init__ builds MCPClient(api_keys={anthropic: key}). -/
def anthropicClientNew (env : Env) (apiKey : Option String) : Except String Unit :=
  mcpClientNew env [("anthropic", apiKey)]

/-- OpenaiClient.__init__ builds MCPClient(api_keys={openai: key}). -/
def openaiClientNew (env : Env) (apiKey : Option String) : Except String Unit :=
  mcpClientNew env [("openai", apiKey)]

/-- LlamaLocalClient.__init__ builds MCPClient(api_keys={}). -/
def llamaClientNew (env : Env) : Except String Unit :=
  mcpClientNew env []

/-- The module-level clients dictionary of app.py: all three constructors
run at import time, in insertion order. -/
def appClientsNew (env : Env) : Except String (List String) := do
  let _ ← llamaClientNew env
  let _ ← anthropicClientNew env env.anthropicKey
  let _ ← openaiClientNew env env.openaiKey
  Except.ok clientKeys

/-! ## Delta-fragment reassembly analysis (C8) -/

/-- A single non-fragmented delivery of tool-call content: one complete
delta per record, carrying index k, k+1, ... in order. -/
def enumFragsFrom (k : Nat) : List ToolCallRec → List Frag
  | [] => []
  | r :: rs => ⟨k, r.id, r.ty, r.name, r.args⟩ :: enumFragsFrom (k + 1) rs

/-- A single non-fragmented delivery of the given content (indices from 0). -/
def singleDelivery (content : List ToolCallRec) : List Frag :=
  enumFragsFrom 0 content

/-- The argument fragments carried for index i, concatenated in delivery
order. -/
def argsJoined (ds : List Frag) (i : Nat) : String :=
  String.join ((ds.filter (fun d => d.index = i)).map Frag.fargs)

/-- The reassembly result described by the spec, computed per index in
first-occurrence order starting at k: id/type/name from the index's first
fragment, arguments the concatenation of all of that index's argument
fragments. -/
def reassembledSpec : Nat → List Frag → List ToolCallRec
  | _, [] => []
  | k, d :: ds =>
    if d.index = k then
      ⟨d.id, d.ty, d.fname, d.fargs ++ argsJoined ds k⟩ :: reassembledSpec (k + 1) ds
    else reassembledSpec k ds

/-- Fragment sequences in which each new index is opened in increasing
order (k, k+1, ...) by a fragment carrying the id/type/name, and later
fragments of an already-open index carry only argument text.  This is the
shape the OpenAI wire protocol actually delivers; the claim's arbitrary
interleavings are strictly larger. -/
inductive WfFrags : Nat → List Frag → Prop
  | nil (k : Nat) : WfFrags k []
  | openNew (k : Nat) (d : Frag) (ds : List Frag) :
      d.index = k → WfFrags (k + 1) ds → WfFrags k (d :: ds)
  | contFrag (k : Nat) (d : Frag) (ds : List Frag) :
      d.index < k → d.id = "" → d.ty = "" → d.fname = "" →
      WfFrags k ds → WfFrags k (d :: ds)

/-- Already-open records at positions i, i+1, ..., each extended by the
argument fragments the remaining stream still delivers for its index. -/
def addOld : List ToolCallRec → Nat → List Frag → List ToolCallRec
  | [], _, _ => []
  | r :: rs, i, ds => ⟨r.id, r.ty, r.name, r.args ++ argsJoined ds i⟩ :: addOld rs (i + 1) ds

/-! ### Multiplexer lemmas -/

/-- The nonempty items a slot still has to deliver. -/
def pendingOf (st : MState) (i : Nat) : List String :=
  match slot st i with
  | some (items, _) => items.filter (fun c => c ≠ "")
  | none => []

@[simp] lemma slot_nil (i : Nat) : slot [] i = none := by
  cases i <;> rfl

@[simp] lemma slot_cons_zero (a : Option Gen) (st : MState) :
    slot (a :: st) 0 = a := rfl

@[simp] lemma slot_cons_succ (a : Option Gen) (st : MState) (n : Nat) :
    slot (a :: st) (n + 1) = slot st n := rfl

lemma slot_set_eq (st : MState) (i : Nat) (v : Option Gen) (h : i < st.length) :
    slot (st.set i v) i = v := by
  induction st generalizing i with
  | nil => simp at h
  | cons a st ih =>
    cases i with
    | zero => rfl
    | succ n => simpa using ih n (by simpa using h)

lemma slot_set_ne (st : MState) (i j : Nat) (v : Option Gen) (h : i ≠ j) :
    slot (st.set i v) j = slot st j := by
  induction st generalizing i j with
  | nil => simp
  | cons a st ih =>
    cases i with
    | zero =>
      cases j with
      | zero => exact absurd rfl h
      | succ m => rfl
    | succ n =>
      cases j with
      | zero => rfl
      | succ m => simpa using ih n m (fun hnm => h (by rw [hnm]))

lemma stMeasure_set (st : MState) (i : Nat) (v : Option Gen) (h : i < st.length) :
    stMeasure (st.set i v) + genMeasure (slot st i) =
      stMeasure st + genMeasure v := by
  induction st generalizing i with
  | nil => simp at h
  | cons a st ih =>
    cases i with
    | zero => simp [stMeasure]; omega
    | succ n =>
      have := ih n (by simpa using h)
      simp [stMeasure]
      omega

lemma stMeasure_zero (st : MState) (h : stMeasure st = 0) (i : Nat) :
    slot st i = none := by
  induction st generalizing i with
  | nil => simp
  | cons a st ih =>
    simp [stMeasure] at h
    cases i with
    | zero =>
      cases a with
      | none => rfl
      | some g => simp [genMeasure] at h
    | succ n => simpa using ih h.2 n

lemma mem_liveIdxs (st : MState) (i : Nat) :
    i ∈ liveIdxs st ↔ i < st.length ∧ (slot st i).isSome := by
  simp [liveIdxs]

lemma slot_none_of_ge (st : MState) (i : Nat) (h : st.length ≤ i) :
    slot st i = none := by
  induction st generalizing i with
  | nil => simp
  | cons a st ih =>
    cases i with
    | zero => simp at h
    | succ n => simpa using ih n (by simpa using h)

lemma liveIdxs_nil_slot (st : MState) (h : liveIdxs st = []) (i : Nat) :
    slot st i = none := by
  by_cases hlt : i < st.length
  · cases hg : slot st i with
    | none => rfl
    | some g =>
      have hmem : i ∈ liveIdxs st := (mem_liveIdxs st i).mpr ⟨hlt, by simp [hg]⟩
      rw [h] at hmem
      simp at hmem
  · exact slot_none_of_ge st i (Nat.le_of_not_lt hlt)

lemma pick_mem (l : List Nat) (n : Nat) (h : l ≠ []) :
    l.getD (n % l.length) 0 ∈ l := by
  have hlen : 0 < l.length := List.length_pos.mpr h
  have hm : n % l.length < l.length := Nat.mod_lt _ hlen
  rw [List.getD_eq_getElem l 0 hm]
  exact List.getElem_mem hm

lemma emitsOf_append (a b : List TraceEv) (i : Nat) :
    emitsOf (a ++ b) i = emitsOf a i ++ emitsOf b i := by
  simp [emitsOf]

@[simp] lemma emitsOf_nil (i : Nat) : emitsOf [] i = [] := rfl

@[simp] lemma emitsOf_cons_exhaust (j : Nat) (tr : List TraceEv) (i : Nat) :
    emitsOf (TraceEv.exhaust j :: tr) i = emitsOf tr i := rfl

@[simp] lemma emitsOf_cons_errorDrop (j : Nat) (e : String) (tr : List TraceEv)
    (i : Nat) : emitsOf (TraceEv.errorDrop j e :: tr) i = emitsOf tr i := rfl

@[simp] lemma emitsOf_cons_emit (j : Nat) (x : String) (tr : List TraceEv)
    (i : Nat) :
    emitsOf (TraceEv.emit j x :: tr) i =
      if j = i then x :: emitsOf tr i else emitsOf tr i := by
  by_cases h : j = i <;> simp [emitsOf, h]

lemma removalCount_append (a b : List TraceEv) (i : Nat) :
    removalCount (a ++ b) i = removalCount a i + removalCount b i := by
  simp [removalCount, List.countP_append]

lemma pendingOf_slot (st : MState) (i : Nat) :
    pendingOf st i =
      (match slot st i with
       | some (items, _) => items.filter (fun c => c ≠ "")
       | none => []) := rfl

/-- Main projection invariant: with sufficient fuel, the merged trace yields
for each source exactly its own remaining nonempty items, in order,
independent of the schedule and of the other sources. -/
lemma mergeFrom_emits (sched : Nat → Nat) :
    ∀ fuel t st, stMeasure st ≤ fuel →
      ∀ i, emitsOf (mergeFrom sched fuel t st) i = pendingOf st i := by
  intro fuel
  induction fuel with
  | zero =>
    intro t st hm i
    have h0 : stMeasure st = 0 := Nat.le_zero.mp hm
    rw [mergeFrom, pendingOf_slot, stMeasure_zero st h0 i]
    rfl
  | succ fuel ih =>
    intro t st hm i
    rw [mergeFrom]
    cases hl : liveIdxs st with
    | nil =>
      rw [pendingOf_slot, liveIdxs_nil_slot st hl i]
      rfl
    | cons j js =>
      dsimp only
      have hmem : (j :: js).getD (sched t % (j :: js).length) 0 ∈ liveIdxs st := by
        rw [hl]; exact pick_mem _ _ (by simp)
      set i0 := (j :: js).getD (sched t % (j :: js).length) 0 with hi0
      have hlt : i0 < st.length := ((mem_liveIdxs st i0).mp hmem).1
      have hsome : (slot st i0).isSome := ((mem_liveIdxs st i0).mp hmem).2
      cases hg : slot st i0 with
      | none => rw [hg] at hsome; simp at hsome
      | some g =>
        obtain ⟨items, exc⟩ := g
        cases items with
        | cons x rest =>
          dsimp only
          have hms : stMeasure (st.set i0 (some (rest, exc))) ≤ fuel := by
            have hset := stMeasure_set st i0 (some (rest, exc)) hlt
            rw [hg] at hset
            simp [genMeasure] at hset
            omega
          rw [emitsOf_append, ih (t + 1) _ hms i]
          rw [pendingOf_slot (st.set i0 (some (rest, exc))) i, pendingOf_slot st i]
          by_cases hii : i0 = i
          · subst hii
            rw [slot_set_eq st i0 _ hlt, hg]
            by_cases hx : x = ""
            · simp [hx]
            · simp [hx, List.filter_cons]
          · rw [slot_set_ne st i0 i _ hii]
            by_cases hx : x = ""
            · simp [hx]
            · simp [hx, hii]
        | nil =>
          have hms : stMeasure (st.set i0 none) ≤ fuel := by
            have hset := stMeasure_set st i0 none hlt
            rw [hg] at hset
            simp [genMeasure] at hset
            omega
          cases exc with
          | some e =>
            dsimp only
            rw [emitsOf_cons_errorDrop, ih (t + 1) _ hms i]
            rw [pendingOf_slot (st.set i0 none) i, pendingOf_slot st i]
            by_cases hii : i0 = i
            · subst hii
              rw [slot_set_eq st i0 _ hlt, hg]
              rfl
            · rw [slot_set_ne st i0 i _ hii]
          | none =>
            dsimp only
            rw [emitsOf_cons_exhaust, ih (t + 1) _ hms i]
            rw [pendingOf_slot (st.set i0 none) i, pendingOf_slot st i]
            by_cases hii : i0 = i
            · subst hii
              rw [slot_set_eq st i0 _ hlt, hg]
              rfl
            · rw [slot_set_ne st i0 i _ hii]

@[simp] lemma removalCount_nil (i : Nat) : removalCount [] i = 0 := rfl

lemma removalCount_cons (ev : TraceEv) (tr : List TraceEv) (i : Nat) :
    removalCount (ev :: tr) i =
      (if removesSrc i ev then 1 else 0) + removalCount tr i := by
  simp [removalCount, List.countP_cons]
  omega

/-- A source whose slot is already empty gets no further events of any kind
from the multiplexer, with any fuel. -/
lemma mergeFrom_dead (sched : Nat → Nat) :
    ∀ fuel t st i, slot st i = none →
      emitsOf (mergeFrom sched fuel t st) i = [] ∧
        removalCount (mergeFrom sched fuel t st) i = 0 := by
  intro fuel
  induction fuel with
  | zero => intro t st i hdead; exact ⟨rfl, rfl⟩
  | succ fuel ih =>
    intro t st i hdead
    rw [mergeFrom]
    cases hl : liveIdxs st with
    | nil => exact ⟨rfl, rfl⟩
    | cons j js =>
      dsimp only
      have hmem : (j :: js).getD (sched t % (j :: js).length) 0 ∈ liveIdxs st := by
        rw [hl]; exact pick_mem _ _ (by simp)
      set i0 := (j :: js).getD (sched t % (j :: js).length) 0 with hi0
      have hsome : (slot st i0).isSome := ((mem_liveIdxs st i0).mp hmem).2
      have hii : i0 ≠ i := by
        intro hev
        rw [hev, hdead] at hsome
        simp at hsome
      have hpres : ∀ v, slot (st.set i0 v) i = none := by
        intro v
        rw [slot_set_ne st i0 i v hii, hdead]
      cases hg : slot st i0 with
      | none => rw [hg] at hsome; simp at hsome
      | some g =>
        obtain ⟨items, exc⟩ := g
        cases items with
        | cons x rest =>
          dsimp only
          have hrec := ih (t + 1) (st.set i0 (some (rest, exc))) i (hpres _)
          constructor
          · rw [emitsOf_append, hrec.1]
            by_cases hx : x = "" <;> simp [hx, hii]
          · rw [removalCount_append, hrec.2]
            by_cases hx : x = "" <;> simp [hx, removalCount, removesSrc]
        | nil =>
          have hrec := ih (t + 1) (st.set i0 none) i (hpres _)
          cases exc with
          | some e =>
            dsimp only
            refine ⟨by rw [emitsOf_cons_errorDrop, hrec.1], ?_⟩
            rw [removalCount_cons, hrec.2, removesSrc]
            simp [hii]
          | none =>
            dsimp only
            refine ⟨by rw [emitsOf_cons_exhaust, hrec.1], ?_⟩
            rw [removalCount_cons, hrec.2, removesSrc]
            simp [hii]

/-- With sufficient fuel, every live source is removed from the live set
exactly once (exhaustion or a caught failure), and a dead slot never is:
the merge runs until the live set is empty. -/
lemma mergeFrom_removal (sched : Nat → Nat) :
    ∀ fuel t st, stMeasure st ≤ fuel →
      ∀ i, removalCount (mergeFrom sched fuel t st) i =
        if (slot st i).isSome then 1 else 0 := by
  intro fuel
  induction fuel with
  | zero =>
    intro t st hm i
    have h0 : stMeasure st = 0 := Nat.le_zero.mp hm
    rw [stMeasure_zero st h0 i]
    rfl
  | succ fuel ih =>
    intro t st hm i
    rw [mergeFrom]
    cases hl : liveIdxs st with
    | nil =>
      rw [liveIdxs_nil_slot st hl i]
      rfl
    | cons j js =>
      dsimp only
      have hmem : (j :: js).getD (sched t % (j :: js).length) 0 ∈ liveIdxs st := by
        rw [hl]; exact pick_mem _ _ (by simp)
      set i0 := (j :: js).getD (sched t % (j :: js).length) 0 with hi0
      have hlt : i0 < st.length := ((mem_liveIdxs st i0).mp hmem).1
      have hsome : (slot st i0).isSome := ((mem_liveIdxs st i0).mp hmem).2
      cases hg : slot st i0 with
      | none => rw [hg] at hsome; simp at hsome
      | some g =>
        obtain ⟨items, exc⟩ := g
        cases items with
        | cons x rest =>
          dsimp only
          have hms : stMeasure (st.set i0 (some (rest, exc))) ≤ fuel := by
            have hset := stMeasure_set st i0 (some (rest, exc)) hlt
            rw [hg] at hset
            simp [genMeasure] at hset
            omega
          rw [removalCount_append, ih (t + 1) _ hms i]
          by_cases hii : i0 = i
          · subst hii
            rw [slot_set_eq st i0 _ hlt, hg]
            by_cases hx : x = "" <;> simp [hx, removalCount, removesSrc]
          · rw [slot_set_ne st i0 i _ hii]
            by_cases hx : x = "" <;> simp [hx, removalCount, removesSrc]
        | nil =>
          have hms : stMeasure (st.set i0 none) ≤ fuel := by
            have hset := stMeasure_set st i0 none hlt
            rw [hg] at hset
            simp [genMeasure] at hset
            omega
          cases exc with
          | some e =>
            dsimp only
            rw [removalCount_cons, ih (t + 1) _ hms i, removesSrc]
            by_cases hii : i0 = i
            · subst hii
              rw [slot_set_eq st i0 _ hlt, hg]
              simp
            · rw [slot_set_ne st i0 i _ hii]
              simp [hii]
          | none =>
            dsimp only
            rw [removalCount_cons, ih (t + 1) _ hms i, removesSrc]
            by_cases hii : i0 = i
            · subst hii
              rw [slot_set_eq st i0 _ hlt, hg]
              simp
            · rw [slot_set_ne st i0 i _ hii]
              simp [hii]

lemma noEmitAfterRemoval_cons (i : Nat) (ev : TraceEv) (tr : List TraceEv) :
    noEmitAfterRemoval i (ev :: tr) ↔
      ((removesSrc i ev = true → emitsOf tr i = []) ∧ noEmitAfterRemoval i tr) :=
  Iff.rfl

lemma noEmitAfterRemoval_append (i : Nat) (a b : List TraceEv)
    (ha : noEmitAfterRemoval i a) (hb : noEmitAfterRemoval i b)
    (hnew : ∀ ev ∈ a, removesSrc i ev = true → emitsOf b i = []) :
    noEmitAfterRemoval i (a ++ b) := by
  induction a with
  | nil => simpa using hb
  | cons ev a iha =>
    rw [List.cons_append, noEmitAfterRemoval_cons]
    constructor
    · intro hrm
      rw [emitsOf_append]
      rw [List.append_eq_nil]
      exact ⟨(ha.1 hrm), hnew ev (by simp) hrm⟩
    · exact iha ha.2 (fun e he hr => hnew e (by simp [he]) hr)

/-- Safety: after the multiplexer removes a source from the live set, it
never yields another item for that source (with any fuel, any schedule). -/
lemma mergeFrom_safety (sched : Nat → Nat) :
    ∀ fuel t st i, noEmitAfterRemoval i (mergeFrom sched fuel t st) := by
  intro fuel
  induction fuel with
  | zero => intro t st i; trivial
  | succ fuel ih =>
    intro t st i
    rw [mergeFrom]
    cases hl : liveIdxs st with
    | nil => trivial
    | cons j js =>
      dsimp only
      set i0 := (j :: js).getD (sched t % (j :: js).length) 0 with hi0
      cases hg : slot st i0 with
      | none => trivial
      | some g =>
        obtain ⟨items, exc⟩ := g
        cases items with
        | cons x rest =>
          dsimp only
          by_cases hx : x = ""
          · simp only [hx, if_pos rfl, List.nil_append]
            exact ih (t + 1) _ i
          · simp only [if_neg hx, List.singleton_append]
            rw [noEmitAfterRemoval_cons]
            refine ⟨fun hrm => ?_, ih (t + 1) _ i⟩
            simp [removesSrc] at hrm
        | nil =>
          cases exc with
          | some e =>
            dsimp only
            rw [noEmitAfterRemoval_cons]
            refine ⟨?_, ih (t + 1) _ i⟩
            intro hrm
            have hie : i0 = i := by simpa [removesSrc] using hrm
            subst hie
            have hdead : slot (st.set i0 none) i0 = none := by
              by_cases hlt : i0 < st.length
              · exact slot_set_eq st i0 none hlt
              · exact slot_none_of_ge _ _ (by simpa using Nat.le_of_not_lt hlt)
            exact (mergeFrom_dead sched fuel (t + 1) _ i0 hdead).1
          | none =>
            dsimp only
            rw [noEmitAfterRemoval_cons]
            refine ⟨?_, ih (t + 1) _ i⟩
            intro hrm
            have hie : i0 = i := by simpa [removesSrc] using hrm
            subst hie
            have hdead : slot (st.set i0 none) i0 = none := by
              by_cases hlt : i0 < st.length
              · exact slot_set_eq st i0 none hlt
              · exact slot_none_of_ge _ _ (by simpa using Nat.le_of_not_lt hlt)
            exact (mergeFrom_dead sched fuel (t + 1) _ i0 hdead).1

lemma slot_map_some (gens : List Gen) (i : Nat) :
    slot (gens.map some) i = gens[i]? := by
  induction gens generalizing i with
  | nil => cases i <;> rfl
  | cons g gens ih =>
    cases i with
    | zero => simp [slot]
    | succ n =>
      rw [List.map_cons, slot_cons_succ, List.getElem?_cons_succ]
      exact ih n

/-! ## Claim theorems -/

/-- Claim C3, counterexample: a request whose requested-backend set is the
EMPTY list does not fail with InvalidRequest; `if req.windows:` treats the
empty list as falsy, so chat_stream silently selects all three configured
backends and spawns three adapter tasks. -/
theorem chatStream_empty_windows_selects_all :
    chatStream "hello" (some []) = Except.ok ["llama", "anthropic", "openai"] := rfl

/-- Claim C3, amended: for every request with a NONEMPTY requested-backend
set containing only unrecognized identifiers, chat_stream fails
synchronously with the 400 InvalidRequest condition (before the streaming
body - and hence any adapter task - is created); an empty or absent
requested-backend set instead selects all configured backends. -/
theorem chatStream_unrecognized_windows_fail (message : String) (ws : List String)
    (hmsg : message ≠ "") (hne : ws ≠ []) (hunrec : ∀ w ∈ ws, w ∉ clientKeys) :
    chatStream message (some ws) = Except.error (400, "No valid window IDs provided") := by
  have hfilter : ws.filter (fun w => clientKeys.contains w) = [] := by
    rw [List.filter_eq_nil_iff]
    intro w hw
    simpa using hunrec w hw
  unfold chatStream
  rw [if_neg hmsg]
  dsimp only
  rw [if_pos hne, hfilter]
  rfl

/-- Witness for the amended C3 theorem. -/
theorem chatStream_unrecognized_windows_fail_witness :
    chatStream "hi" (some ["gemini"]) =
      Except.error (400, "No valid window IDs provided") :=
  chatStream_unrecognized_windows_fail "hi" ["gemini"] (by decide) (by decide)
    (by decide)

/-- Claim C10: whenever BRAVE_API_KEY is unset or empty, constructing any of
the three provider clients raises ValueError("Missing required Brave API
key") - each constructor builds an MCPClient, which instantiates
MCPBraveServer, whose constructor validates the key - and therefore the
app.py module-level clients dictionary cannot be built. -/
theorem clients_require_brave_key (env : Env)
    (h : env.braveKey = none ∨ env.braveKey = some "") :
    anthropicClientNew env env.anthropicKey =
        Except.error "Missing required Brave API key" ∧
    openaiClientNew env env.openaiKey =
        Except.error "Missing required Brave API key" ∧
    llamaClientNew env = Except.error "Missing required Brave API key" ∧
    appClientsNew env = Except.error "Missing required Brave API key" := by
  have hbrave : mcpBraveServerNew env = Except.error "Missing required Brave API key" := by
    rcases h with h | h <;> simp [mcpBraveServerNew, h]
  refine ⟨?_, ?_, ?_, ?_⟩ <;>
    simp [anthropicClientNew, openaiClientNew, llamaClientNew, appClientsNew,
      mcpClientNew, hbrave, Bind.bind, Except.bind]

/-- Witness for the C10 theorem. -/
theorem clients_require_brave_key_witness :
    appClientsNew ⟨none, some "ak", some "ok"⟩ =
      Except.error "Missing required Brave API key" :=
  (clients_require_brave_key ⟨none, some "ak", some "ok"⟩ (Or.inl rfl)).2.2.2

/-- Claim C6: every operation of OpenaiClient on its conversation only
appends messages (each operation returns the old list plus a tail, so no
existing message is mutated or removed), and after any sequence of
operations the system-prompt message installed by the constructor is still
the first message. -/
theorem openai_conversation_append_only (systemPrompt : String) (ops : List OpenaiOp) :
    (∀ msgs op, ∃ tail, openaiApply msgs op = msgs ++ tail) ∧
    (∃ tail, ops.foldl openaiApply (openaiClientMessagesInit systemPrompt) =
        openaiClientMessagesInit systemPrompt ++ tail) ∧
    (ops.foldl openaiApply (openaiClientMessagesInit systemPrompt)).head? =
      some ("system", systemPrompt) := by
  have step : ∀ msgs op, ∃ tail, openaiApply msgs op = msgs ++ tail := by
    intro msgs op
    cases op with
    | updateUser m => exact ⟨_, rfl⟩
    | syncSuccess cs => exact ⟨_, rfl⟩
    | syncFailure cs e => exact ⟨_, rfl⟩
    | mcpSuccess ch => exact ⟨_, rfl⟩
    | mcpFailure ch e => exact ⟨_, rfl⟩
    | mcpCancelled ch =>
      simp only [openaiApply]
      split
      · exact ⟨[], by simp⟩
      · exact ⟨_, rfl⟩
  have fold : ∀ (l : List OpenaiOp) (msgs : List (String × String)),
      ∃ tail, l.foldl openaiApply msgs = msgs ++ tail := by
    intro l
    induction l with
    | nil => intro msgs; exact ⟨[], by simp⟩
    | cons op rest ih =>
      intro msgs
      obtain ⟨t1, h1⟩ := step msgs op
      obtain ⟨t2, h2⟩ := ih (openaiApply msgs op)
      exact ⟨t1 ++ t2, by rw [List.foldl_cons, h2, h1, List.append_assoc]⟩
  obtain ⟨tail, htail⟩ := fold ops (openaiClientMessagesInit systemPrompt)
  refine ⟨step, ⟨tail, htail⟩, ?_⟩
  rw [htail]
  rfl

/-- Claim C5, counterexample: the llama adapter's direct synchronous path
(my_llama.get_llama_response) re-raises a transport failure; nothing is
appended to conversation_history and no error item is yielded, so the
failure is invisible in conversation history, contradicting the claim for
this adapter variant. -/
theorem getLlamaResponse_reraises_without_append :
    getLlamaResponse [] [] (some "Connection refused") =
      ([], [], some "Connection refused") := rfl

/-- Claim C5, amended: on an unrecoverable failure the anthropic MCP
adapter, both openai adapters (the synchronous get_openai_response and the
MCP streaming get_mcp_response_stream) and the llama MCP adapter each
append an assistant message containing the error text to their conversation
AND emit an error item with the same text; the llama adapter's direct
synchronous path (get_llama_response) instead re-raises the transport
failure, appending nothing (the failure surfaces only through the
multiplexer layer). -/
theorem adapter_failure_visible_in_history
    (msgs hist hist2 hist3 : List (String × String))
    (chunks chunks2 chunks3 : List String)
    (contents : List (Option String)) (lines : List String) (e : String) :
    (anthGetMcpResponseStream msgs chunks (some e)).2 =
        msgs ++ [("assistant", "Error getting MCP response: " ++ e)] ∧
    (anthGetMcpResponseStream msgs chunks (some e)).1 =
        chunks.filter (fun c => c ≠ "") ++ ["Error getting MCP response: " ++ e] ∧
    (openaiGetResponse msgs contents (some e)).2 =
        msgs ++ [("assistant", "Error getting OpenAI response: " ++ e)] ∧
    (openaiGetResponse msgs contents (some e)).1 =
        contents.filterMap id ++ ["Error getting OpenAI response: " ++ e] ∧
    (openaiGetMcpResponseStream hist3 chunks3 (some e)).2 =
        hist3 ++ [("assistant", "Error getting MCP response for OpenAI: " ++ e)] ∧
    (openaiGetMcpResponseStream hist3 chunks3 (some e)).1 =
        chunks3.filter (fun c => c ≠ "") ++
          ["Error getting MCP response for OpenAI: " ++ e] ∧
    (llamaGetMcpResponseStream hist chunks2 (some e)).2 =
        hist ++ [("assistant", "Error getting MCP response for Llama: " ++ e)] ∧
    (llamaGetMcpResponseStream hist chunks2 (some e)).1 =
        chunks2.filter (fun c => c ≠ "") ++
          ["Error getting MCP response for Llama: " ++ e] ∧
    (getLlamaResponse hist2 lines (some e)).2.1 = hist2 ∧
    (getLlamaResponse hist2 lines (some e)).2.2 = some e :=
  ⟨rfl, rfl, rfl, rfl, rfl, rfl, rfl, rfl, rfl, rfl⟩

/-- formatSSE output starts with "data: " and is never empty. -/
lemma formatSSE_ne_empty (clientId chunk : String) :
    formatSSE clientId chunk ≠ "" := by
  intro h
  have hlen := congrArg String.length h
  simp [formatSSE, String.length_append] at hlen
  exact absurd hlen.1.1 (by decide)

/-- Every item process_client_messages yields is nonempty. -/
lemma processClientMessages_ne_empty (clientId : String) (rs : RawStream) :
    ∀ x ∈ processClientMessages clientId rs, x ≠ "" := by
  intro x hx
  unfold processClientMessages at hx
  rcases List.mem_append.mp hx with hx | hx
  · obtain ⟨c, _, hc⟩ := List.mem_map.mp hx
    rw [← hc]
    exact formatSSE_ne_empty _ _
  · cases hrs : rs.2 with
    | some e =>
      rw [hrs] at hx
      simp at hx
      rw [hx]
      exact formatSSE_ne_empty _ _
    | none => rw [hrs] at hx; simp at hx

/-- Claim C2: for every schedule and every set of concurrently merged
sources, each source is removed from the live set exactly once (so the
merge, which loops while the live set is nonempty, terminates exactly when
every source's sequence has terminated; exhaustion removes a source without
any emitted terminal item), no item is ever emitted for a source after its
removal, and each source's emitted items are exactly its own truthy items
in order. -/
theorem merge_terminates_iff_all_sources_done (sched : Nat → Nat)
    (gens : List Gen) (i : Nat) (h : i < gens.length) :
    removalCount (mergeGens sched gens) i = 1 ∧
    noEmitAfterRemoval i (mergeGens sched gens) ∧
    emitsOf (mergeGens sched gens) i =
      (gens.getD i ([], none)).1.filter (fun c => c ≠ "") := by
  have hslot : slot (gens.map some) i = some (gens.getD i ([], none)) := by
    rw [slot_map_some, List.getElem?_eq_getElem h,
      List.getD_eq_getElem gens ([], none) h]
  refine ⟨?_, mergeFrom_safety sched _ 0 _ i, ?_⟩
  · have hrem := mergeFrom_removal sched (stMeasure (gens.map some)) 0
      (gens.map some) le_rfl i
    rw [hslot] at hrem
    simpa [mergeGens] using hrem
  · have hem := mergeFrom_emits sched (stMeasure (gens.map some)) 0
      (gens.map some) le_rfl i
    rw [pendingOf_slot, hslot] at hem
    simpa [mergeGens] using hem

/-- Witness for the C2 theorem. -/
theorem merge_terminates_iff_all_sources_done_witness :
    removalCount (mergeGens (fun _ => 0) [(["a"], none), ([], some "boom")]) 0 = 1 ∧
    noEmitAfterRemoval 0 (mergeGens (fun _ => 0) [(["a"], none), ([], some "boom")]) ∧
    emitsOf (mergeGens (fun _ => 0) [(["a"], none), ([], some "boom")]) 0 =
      ([(["a"], none), ([], some "boom")].getD 0 ([], none)).1.filter
        (fun c => c ≠ "") :=
  merge_terminates_iff_all_sources_done (fun _ => 0)
    [(["a"], none), ([], some "boom")] 0 (by decide)

/-- Claim C1: if fetching from one backend raises, the pipeline formed by
process_client_messages and merge_async_generators catches the failure,
emits exactly one "Error: ..." item attributed (via the SSE payload) to
that client only and as that source's last item, removes the source from
the live set exactly once and never fetches from it again (no item for it
after its removal), and every source's merged output - the failing one and
its siblings alike - equals exactly what that source alone produces,
independent of the schedule and of the other sources. -/
theorem source_failure_isolated (sched : Nat → Nat)
    (srcs : List (String × RawStream)) (k : Nat) (cid : String)
    (chunks : List String) (e : String)
    (hk : srcs[k]? = some (cid, (chunks, some e))) :
    emitsOf (mergePipeline sched srcs) k =
      (chunks.filter (fun c => c ≠ "")).map (formatSSE cid) ++
        [formatSSE cid ("Error: " ++ e)] ∧
    removalCount (mergePipeline sched srcs) k = 1 ∧
    noEmitAfterRemoval k (mergePipeline sched srcs) ∧
    (∀ j cj rsj, srcs[j]? = some (cj, rsj) →
      emitsOf (mergePipeline sched srcs) j = processClientMessages cj rsj) := by
  have hproj : ∀ j cj rsj, srcs[j]? = some (cj, rsj) →
      emitsOf (mergePipeline sched srcs) j = processClientMessages cj rsj := by
    intro j cj rsj hj
    have hjlt : j < srcs.length := by
      by_contra hge
      rw [List.getElem?_eq_none (Nat.le_of_not_lt hge)] at hj
      exact Option.noConfusion hj
    have hgens : (srcs.map (fun p => ((processClientMessages p.1 p.2 : List String),
        (none : Option String))))[j]? =
          some (processClientMessages cj rsj, none) := by
      rw [List.getElem?_map, hj]
      rfl
    have hslot : slot ((srcs.map (fun p => ((processClientMessages p.1 p.2 : List String),
        (none : Option String)))).map some) j =
          some (processClientMessages cj rsj, none) := by
      rw [slot_map_some, hgens]
    have hem := mergeFrom_emits sched
      (stMeasure (((srcs.map (fun p => ((processClientMessages p.1 p.2 : List String),
        (none : Option String)))).map some))) 0 _ le_rfl j
    rw [pendingOf_slot, hslot] at hem
    have hfilter : (processClientMessages cj rsj).filter (fun c => c ≠ "") =
        processClientMessages cj rsj := by
      rw [List.filter_eq_self]
      intro a ha
      simpa using processClientMessages_ne_empty cj rsj a ha
    calc emitsOf (mergePipeline sched srcs) j
        = (processClientMessages cj rsj).filter (fun c => c ≠ "") := hem
      _ = processClientMessages cj rsj := hfilter
  have hklt : k < srcs.length := by
    by_contra hge
    rw [List.getElem?_eq_none (Nat.le_of_not_lt hge)] at hk
    exact Option.noConfusion hk
  have hkem := hproj k cid (chunks, some e) hk
  refine ⟨?_, ?_, ?_, hproj⟩
  · rw [hkem]
    rfl
  · have hgens : (srcs.map (fun p => ((processClientMessages p.1 p.2 : List String),
        (none : Option String))))[k]? =
          some (processClientMessages cid (chunks, some e), none) := by
      rw [List.getElem?_map, hk]
      rfl
    have hslot : slot ((srcs.map (fun p => ((processClientMessages p.1 p.2 : List String),
        (none : Option String)))).map some) k =
          some (processClientMessages cid (chunks, some e), none) := by
      rw [slot_map_some, hgens]
    have hrem := mergeFrom_removal sched
      (stMeasure (((srcs.map (fun p => ((processClientMessages p.1 p.2 : List String),
        (none : Option String)))).map some))) 0 _ le_rfl k
    rw [hslot] at hrem
    simpa [mergePipeline, mergeGens] using hrem
  · exact mergeFrom_safety sched _ 0 _ k

/-- Witness for the C1 theorem. -/
theorem source_failure_isolated_witness :
    emitsOf (mergePipeline (fun _ => 0)
        [("anthropic", (["hello"], none)), ("llama", ([], some "boom"))]) 1 =
      (([] : List String).filter (fun c => c ≠ "")).map (formatSSE "llama") ++
        [formatSSE "llama" ("Error: " ++ "boom")] ∧
    removalCount (mergePipeline (fun _ => 0)
        [("anthropic", (["hello"], none)), ("llama", ([], some "boom"))]) 1 = 1 ∧
    noEmitAfterRemoval 1 (mergePipeline (fun _ => 0)
        [("anthropic", (["hello"], none)), ("llama", ([], some "boom"))]) ∧
    (∀ j cj rsj,
      ([("anthropic", (["hello"], none)), ("llama", ([], some "boom"))] :
          List (String × RawStream))[j]? = some (cj, rsj) →
        emitsOf (mergePipeline (fun _ => 0)
          [("anthropic", (["hello"], none)), ("llama", ([], some "boom"))]) j =
          processClientMessages cj rsj) :=
  source_failure_isolated (fun _ => 0)
    [("anthropic", (["hello"], none)), ("llama", ([], some "boom"))]
    1 "llama" [] "boom" rfl

/-! ### C4: what the adapters append at end of turn -/

lemma string_foldl_append (ys : List String) :
    ∀ acc : String, ys.foldl (fun a t => a ++ t) acc =
      acc ++ ys.foldl (fun a t => a ++ t) "" := by
  induction ys with
  | nil => intro acc; simp
  | cons y ys ih =>
    intro acc
    rw [List.foldl_cons, List.foldl_cons, ih (acc ++ y), ih ("" ++ y),
      String.empty_append, String.append_assoc]

lemma join_eq_foldl (ys : List String) :
    String.join ys = ys.foldl (fun a t => a ++ t) "" := rfl

lemma join_cons (y : String) (ys : List String) :
    String.join (y :: ys) = y ++ String.join ys := by
  rw [join_eq_foldl, List.foldl_cons, string_foldl_append, String.empty_append,
    join_eq_foldl]

lemma join_filter_empty (ys : List String) :
    String.join (ys.filter (fun c => c ≠ "")) = String.join ys := by
  induction ys with
  | nil => rfl
  | cons y ys ih =>
    by_cases hy : y = ""
    · subst hy
      have hstep : ("" :: ys).filter (fun c => c ≠ "") = ys.filter (fun c => c ≠ "") := by
        simp
      rw [hstep, ih, join_cons, String.empty_append]
    · have hstep : (y :: ys).filter (fun c => c ≠ "") = y :: ys.filter (fun c => c ≠ "") := by
        simp [hy]
      rw [hstep, join_cons, join_cons, ih]

/-- Claim C4, amended: for every turn, the assistant message the anthropic
and openai MCP adapters append at end of turn is the concatenation of ALL
chunks emitted during the turn - tool-bracket annotations INCLUDED (they
are yielded in-band by the stream processors and accumulated like any other
chunk). -/
theorem turn_append_is_concat_of_all_output (oracle : ToolOracle)
    (query systemPrompt : String) (chunks : List AnthChunk)
    (followUps : List (List AnthChunk)) (oChunks : List OAChunk)
    (oFollowUp : List (Option String)) (msgs hist : List (String × String)) :
    (anthGetMcpResponseStream msgs
        (processAnthropicStream oracle query chunks followUps).1 none).2 =
      msgs ++ [("assistant", String.join ((anthGetMcpResponseStream msgs
        (processAnthropicStream oracle query chunks followUps).1 none).1))] ∧
    (openaiGetMcpResponseStream hist
        (processOpenaiStream oracle systemPrompt query oChunks oFollowUp).1 none).2 =
      hist ++ [("assistant", String.join ((openaiGetMcpResponseStream hist
        (processOpenaiStream oracle systemPrompt query oChunks oFollowUp).1 none).1))] := by
  constructor
  · show msgs ++ [("assistant",
        ((processAnthropicStream oracle query chunks followUps).1).foldl
          (fun acc t => acc ++ t) "")] = _
    rw [show (anthGetMcpResponseStream msgs
        (processAnthropicStream oracle query chunks followUps).1 none).1 =
      ((processAnthropicStream oracle query chunks followUps).1).filter
        (fun c => c ≠ "") from rfl]
    rw [join_filter_empty, join_eq_foldl]
  · rfl

/-- Claim C4, counterexample: in a turn where the structured adapter runs a
tool round, the assistant message appended to the adapter's conversation
contains the tool-bracket annotations, and differs from the concatenation
of the TextDelta text alone ("Let me search." and "Done."), contradicting
the claim's "excluding tool-bracket annotations". -/
theorem anthropic_append_retains_brackets :
    (anthGetMcpResponseStream []
        (processAnthropicStream (fun _ _ => ToolResult.withContent (JVal.jstr "ok"))
          "find x"
          [AnthChunk.textDelta "Let me search.",
           AnthChunk.messageStop (some "tool_use")
             [⟨"search", TIn.tval (JVal.jobj [("query", JVal.jstr "x")]), "id1"⟩]]
          [[AnthChunk.textDelta "Done."]]).1 none).2 =
      [("assistant",
        "Let me search.
[Using tool: search]

[Tool results from search]
Done.")] ∧
    ("Let me search.
[Using tool: search]

[Tool results from search]
Done." : String) ≠
      "Let me search." ++ "Done." :=
  ⟨rfl, by decide⟩

/-! ### C7: tool round-trip appends exactly one tool-call and one
tool-result message, in order -/

lemma runAnth_textDeltas (oracle : ToolOracle) (pre : List String)
    (rest : List AnthChunk) (fus : List (List AnthChunk)) (cur : List ToolUse)
    (msgs : List AMsg) :
    runAnth oracle (pre.map AnthChunk.textDelta ++ rest) fus cur msgs =
      (pre ++ (runAnth oracle rest fus cur msgs).1,
       (runAnth oracle rest fus cur msgs).2) := by
  induction pre with
  | nil => simp
  | cons p pre ih => simp [runAnth, ih]

lemma runAnth_textDeltas_only (oracle : ToolOracle) (pre : List String)
    (fus : List (List AnthChunk)) (cur : List ToolUse) (msgs : List AMsg) :
    runAnth oracle (pre.map AnthChunk.textDelta) fus cur msgs = (pre, msgs) := by
  have h := runAnth_textDeltas oracle pre [] fus cur msgs
  have h2 : runAnth oracle [] fus cur msgs = ([], msgs) := rfl
  rw [h2] at h
  simpa using h

lemma runAnth_single_stop (oracle : ToolOracle) (tu : ToolUse)
    (rest : List AnthChunk) (followUp : List AnthChunk)
    (fus : List (List AnthChunk)) (msgs : List AMsg) :
    runAnth oracle (AnthChunk.messageStop (some "tool_use") [tu] :: rest)
        (followUp :: fus) [] msgs =
      (anthRoundYields [tu] ++ followUp.filterMap textDeltaOf ++
        (runAnth oracle rest fus []
          (msgs ++ [AMsg.assistantToolCalls [tu]] ++ anthRoundMsgs oracle [tu])).1,
       (runAnth oracle rest fus []
         (msgs ++ [AMsg.assistantToolCalls [tu]] ++ anthRoundMsgs oracle [tu])).2) := by
  simp [runAnth]

/-- Claim C7: a turn in which the structured (anthropic) adapter detects one
tool-call request appends to its per-turn conversation exactly the
assistant tool-call message followed by exactly one tool-result message -
in that order, with nothing after them (continuation text is never appended
to the per-turn conversation); and likewise for the delta-fragment (openai)
adapter whenever the stream's fragments reassemble to exactly one tool
call. -/
theorem tool_round_messages_in_order (oracle : ToolOracle)
    (query systemPrompt : String) (pre post : List String) (tu : ToolUse)
    (followUp : List AnthChunk) (fus : List (List AnthChunk))
    (oChunks : List OAChunk) (oFollowUp : List (Option String))
    (tc : ToolCallRec) (hdata : buildToolCalls (oaFrags oChunks) = [tc]) :
    (processAnthropicStream oracle query
        (pre.map AnthChunk.textDelta ++
          [AnthChunk.messageStop (some "tool_use") [tu]] ++
          post.map AnthChunk.textDelta) (followUp :: fus)).2 =
      [AMsg.userMsg query, AMsg.assistantToolCalls [tu],
       AMsg.toolResultMsg tu.id
         (extractToolResultContent (oracle tu.name (resolveToolInput tu.input)))] ∧
    (processOpenaiStream oracle systemPrompt query oChunks oFollowUp).2 =
      [OMsg.system systemPrompt, OMsg.user query,
       OMsg.assistantToolCalls (String.join (oaContents oChunks)) [tc],
       OMsg.toolMsg tc.id (oaStringifyContent (extractToolResultContent
         (oracle tc.name (oaParseArgs tc.args))))] := by
  constructor
  · rw [processAnthropicStream, List.append_assoc, runAnth_textDeltas,
      List.singleton_append, runAnth_single_stop, runAnth_textDeltas_only]
    rfl
  · simp only [processOpenaiStream]
    rw [hdata]
    rfl

/-- Witness for the C7 theorem. -/
theorem tool_round_messages_in_order_witness :
    (processAnthropicStream (fun _ _ => ToolResult.withContent (JVal.jstr "ok"))
        "q" (([] : List String).map AnthChunk.textDelta ++
          [AnthChunk.messageStop (some "tool_use")
            [⟨"echo", TIn.tval (JVal.jobj []), "t1"⟩]] ++
          ([] : List String).map AnthChunk.textDelta) ([] :: [])).2 =
      [AMsg.userMsg "q",
       AMsg.assistantToolCalls [⟨"echo", TIn.tval (JVal.jobj []), "t1"⟩],
       AMsg.toolResultMsg "t1"
         (extractToolResultContent
           ((fun _ _ => ToolResult.withContent (JVal.jstr "ok")) "echo"
             (resolveToolInput (TIn.tval (JVal.jobj [])))))] ∧
    (processOpenaiStream (fun _ _ => ToolResult.withContent (JVal.jstr "ok"))
        "s" "q" [⟨none, [⟨0, "c1", "function", "echo", "\x7b\x7d"⟩]⟩] []).2 =
      [OMsg.system "s", OMsg.user "q",
       OMsg.assistantToolCalls
         (String.join (oaContents [⟨none, [⟨0, "c1", "function", "echo", "\x7b\x7d"⟩]⟩]))
         [⟨"c1", "function", "echo", "\x7b\x7d"⟩],
       OMsg.toolMsg "c1" (oaStringifyContent (extractToolResultContent
         ((fun _ _ => ToolResult.withContent (JVal.jstr "ok")) "echo"
           (oaParseArgs "\x7b\x7d"))))] :=
  tool_round_messages_in_order (fun _ _ => ToolResult.withContent (JVal.jstr "ok"))
    "q" "s" [] [] ⟨"echo", TIn.tval (JVal.jobj []), "t1"⟩ [] []
    [⟨none, [⟨0, "c1", "function", "echo", "\x7b\x7d"⟩]⟩] []
    ⟨"c1", "function", "echo", "\x7b\x7d"⟩ rfl

/-! ### C9: prompt-synthesized tool detection -/

lemma llamaLoop_at_most_one_tool (oracle : ToolOracle) (followLines : List String) :
    ∀ (lines : List String) (buffer : String),
      (llamaLoop oracle followLines lines buffer).2.length ≤ 1 := by
  intro lines
  induction lines with
  | nil => intro buffer; simp [llamaLoop]
  | cons line rest ih =>
    intro buffer
    rw [llamaLoop]
    by_cases hline : line = ""
    · rw [if_pos hline]; exact ih buffer
    · rw [if_neg hline]
      cases hj : jsonLoads line with
      | none => exact ih buffer
      | some j =>
        dsimp only
        cases hex : llamaExtractTool (buffer ++ getRespField j) with
        | some p =>
          obtain ⟨n, params⟩ := p
          simp
        | none =>
          dsimp only
          by_cases hlen : 50 < (buffer ++ getRespField j).length
          · rw [if_pos hlen]
            dsimp only
            exact ih _
          · rw [if_neg hlen]
            exact ih _

/-- Claim C9: when the accumulated buffer is exactly
"I need to use search with these parameters: {"query":"x"}" (delivered
here as one decoded line), the llama stream processor extracts tool name
search with arguments {"query":"x"} (the JSON object found by
brace-matching in the trailing text) and executes the tool exactly once;
and on every input stream it executes at most one tool per turn, because a
successful detection breaks out of the line loop - it can never re-trigger
on the same buffer content. -/
theorem llama_tool_detected_and_executed_once :
    (processLlamaStream (fun _ _ => ToolResult.withContent (JVal.jstr "ok"))
        ["\x7b\"response\": \"I need to use search with these parameters: \x7b\\\"query\\\":\\\"x\\\"\x7d\"\x7d"]
        []).2 = [("search", JVal.jobj [("query", JVal.jstr "x")])] ∧
    (∀ (oracle : ToolOracle) (lines followLines : List String),
      (processLlamaStream oracle lines followLines).2.length ≤ 1) := by
  constructor
  · rfl
  · intro oracle lines followLines
    exact llamaLoop_at_most_one_tool oracle followLines lines ""

/-! ### C8: delta-fragment reassembly -/

lemma foldl_oaStep_enum (c : List ToolCallRec) :
    ∀ st : List ToolCallRec,
      List.foldl oaStep st (enumFragsFrom st.length c) = st ++ c := by
  induction c with
  | nil => intro st; simp [enumFragsFrom]
  | cons r rs ih =>
    intro st
    rw [enumFragsFrom, List.foldl_cons]
    have hstep : oaStep st ⟨st.length, r.id, r.ty, r.name, r.args⟩ = st ++ [r] := by
      unfold oaStep
      rw [if_pos (Nat.le_refl _)]
    rw [hstep]
    have h := ih (st ++ [r])
    rw [List.length_append] at h
    simpa [List.append_assoc] using h

/-- A single non-fragmented delivery reassembles to exactly its content. -/
lemma buildToolCalls_singleDelivery (c : List ToolCallRec) :
    buildToolCalls (singleDelivery c) = c := by
  have h := foldl_oaStep_enum c []
  simpa [buildToolCalls, singleDelivery] using h

lemma argsJoined_cons_eq (d : Frag) (ds : List Frag) (i : Nat) (h : d.index = i) :
    argsJoined (d :: ds) i = d.fargs ++ argsJoined ds i := by
  unfold argsJoined
  rw [List.filter_cons, if_pos (by simp [h]), List.map_cons, join_cons]

lemma argsJoined_cons_ne (d : Frag) (ds : List Frag) (i : Nat) (h : d.index ≠ i) :
    argsJoined (d :: ds) i = argsJoined ds i := by
  unfold argsJoined
  rw [List.filter_cons, if_neg (by simp [h])]

lemma addOld_append (a b : List ToolCallRec) (ds : List Frag) :
    ∀ i : Nat, addOld (a ++ b) i ds = addOld a i ds ++ addOld b (i + a.length) ds := by
  induction a with
  | nil => intro i; simp [addOld]
  | cons r rs ih =>
    intro i
    rw [List.cons_append, addOld, addOld, ih (i + 1), List.cons_append]
    have h1 : i + (r :: rs).length = i + 1 + rs.length := by
      simp only [List.length_cons]
      omega
    rw [h1]

lemma addOld_skip (rs : List ToolCallRec) (d : Frag) (ds : List Frag) :
    ∀ i : Nat, d.index < i → addOld rs i (d :: ds) = addOld rs i ds := by
  induction rs with
  | nil => intro i _; rfl
  | cons r rest ih =>
    intro i h
    rw [addOld, addOld, argsJoined_cons_ne d ds i (by omega), ih (i + 1) (by omega)]

lemma addOld_skip_ge (rs : List ToolCallRec) (d : Frag) (ds : List Frag) :
    ∀ i : Nat, i + rs.length ≤ d.index → addOld rs i (d :: ds) = addOld rs i ds := by
  induction rs with
  | nil => intro i _; rfl
  | cons r rest ih =>
    intro i h
    rw [List.length_cons] at h
    rw [addOld, addOld, argsJoined_cons_ne d ds i (by omega), ih (i + 1) (by omega)]

lemma addOld_nil_frags (rs : List ToolCallRec) :
    ∀ i : Nat, addOld rs i [] = rs := by
  induction rs with
  | nil => intro i; rfl
  | cons r rest ih =>
    intro i
    rw [addOld, ih (i + 1)]
    have h : argsJoined [] i = "" := rfl
    rw [h, String.append_empty]

lemma addOld_cont (st : List ToolCallRec) :
    ∀ (i : Nat) (d : Frag) (ds : List Frag),
      i ≤ d.index → d.index - i < st.length →
      d.id = "" → d.ty = "" → d.fname = "" →
      addOld st i (d :: ds) =
        addOld (st.set (d.index - i)
          (updateToolCallRec (st.getD (d.index - i) ⟨"", "", "", ""⟩) d)) i ds := by
  induction st with
  | nil =>
    intro i d ds _ h2 _ _ _
    simp at h2
  | cons r rs ih =>
    intro i d ds h1 h2 hid hty hname
    rw [List.length_cons] at h2
    by_cases hdi : d.index = i
    · have h0 : d.index - i = 0 := by omega
      rw [h0]
      have hset : (r :: rs).set 0 (updateToolCallRec ((r :: rs).getD 0 ⟨"", "", "", ""⟩) d) =
          updateToolCallRec r d :: rs := rfl
      rw [hset, addOld, addOld, argsJoined_cons_eq d ds i hdi,
        addOld_skip rs d ds (i + 1) (by omega)]
      have hrec : updateToolCallRec r d =
          ⟨r.id, r.ty, r.name, if d.fargs ≠ "" then r.args ++ d.fargs else r.args⟩ := by
        unfold updateToolCallRec
        rw [if_neg (by simp [hid]), if_neg (by simp [hty]), if_neg (by simp [hname])]
      rw [hrec]
      by_cases hfa : d.fargs = ""
      · rw [if_neg (by simp [hfa]), hfa, String.empty_append]
      · rw [if_pos (by simp [hfa]), String.append_assoc]
    · have hgt : i < d.index := by omega
      have hk : d.index - i = (d.index - (i + 1)) + 1 := by omega
      rw [hk]
      have hset : (r :: rs).set ((d.index - (i + 1)) + 1)
          (updateToolCallRec ((r :: rs).getD ((d.index - (i + 1)) + 1) ⟨"", "", "", ""⟩) d) =
          r :: rs.set (d.index - (i + 1))
            (updateToolCallRec (rs.getD (d.index - (i + 1)) ⟨"", "", "", ""⟩) d) := rfl
      rw [hset, addOld, addOld, argsJoined_cons_ne d ds i (by omega),
        ih (i + 1) d ds (by omega) (by omega) hid hty hname]

/-- Under well-formed delivery order, the source's fold computes exactly
the spec's reassembly (old records extended by their indices' remaining
argument fragments, new records opened in index order). -/
lemma foldl_oaStep_wf :
    ∀ {k : Nat} {ds : List Frag}, WfFrags k ds →
      ∀ st : List ToolCallRec, st.length = k →
        List.foldl oaStep st ds = addOld st 0 ds ++ reassembledSpec k ds := by
  intro k ds hwf
  induction hwf with
  | nil k =>
    intro st hst
    rw [List.foldl_nil, reassembledSpec, addOld_nil_frags st 0, List.append_nil]
  | openNew k d ds hdi hwf ih =>
    intro st hst
    rw [List.foldl_cons]
    have hstep : oaStep st d = st ++ [⟨d.id, d.ty, d.fname, d.fargs⟩] := by
      unfold oaStep
      rw [if_pos (by omega)]
    rw [hstep]
    have hlen : (st ++ [(⟨d.id, d.ty, d.fname, d.fargs⟩ : ToolCallRec)]).length = k + 1 := by
      simp [hst]
    rw [ih _ hlen, addOld_append st [⟨d.id, d.ty, d.fname, d.fargs⟩] ds 0]
    have haddone : addOld [(⟨d.id, d.ty, d.fname, d.fargs⟩ : ToolCallRec)] (0 + st.length) ds =
        [⟨d.id, d.ty, d.fname, d.fargs ++ argsJoined ds k⟩] := by
      rw [addOld, addOld, Nat.zero_add, hst]
    rw [haddone, addOld_skip_ge st d ds 0 (by omega)]
    rw [reassembledSpec, if_pos hdi, List.append_assoc, List.singleton_append]
  | contFrag k d ds hlt hid hty hname hwf ih =>
    intro st hst
    rw [List.foldl_cons]
    have hstep : oaStep st d =
        st.set d.index (updateToolCallRec (st.getD d.index ⟨"", "", "", ""⟩) d) := by
      unfold oaStep
      rw [if_neg (by omega)]
    rw [hstep]
    have hlen : (st.set d.index
        (updateToolCallRec (st.getD d.index ⟨"", "", "", ""⟩) d)).length = k := by
      simp [hst]
    rw [ih _ hlen, reassembledSpec, if_neg (by omega),
      addOld_cont st 0 d ds (Nat.zero_le _) (by omega) hid hty hname, Nat.sub_zero]

/-- Claim C8, amended: for fragment interleavings in which each index's
first fragment arrives in increasing index order (indices contiguous from
0) and later fragments of an index carry only argument text — the shape
the OpenAI wire protocol actually delivers, under any interleaving of the
argument fragments of already-open indices — reassembly reconstructs
exactly the per-index content (id/type/name from the first occurrence,
arguments concatenated in delivery order), identical to a single
non-fragmented delivery of that content.  Out-of-order first occurrences
break this (see the counterexample). -/
theorem fragment_reassembly_matches_single_delivery (ds : List Frag)
    (hwf : WfFrags 0 ds) :
    buildToolCalls ds = reassembledSpec 0 ds ∧
    buildToolCalls ds = buildToolCalls (singleDelivery (reassembledSpec 0 ds)) := by
  have h := foldl_oaStep_wf hwf [] rfl
  have h2 : buildToolCalls ds = reassembledSpec 0 ds := by
    rw [buildToolCalls, h, addOld, List.nil_append]
  exact ⟨h2, by rw [h2, buildToolCalls_singleDelivery]⟩

/-- Witness for the amended C8 theorem: index 0's fragment is split in two
and interleaved with index 1's two fragments. -/
theorem fragment_reassembly_matches_single_delivery_witness :
    buildToolCalls
        [⟨0, "ida", "function", "alpha", "a"⟩, ⟨1, "idb", "function", "beta", "x"⟩,
         ⟨0, "", "", "", "b"⟩, ⟨1, "", "", "", "y"⟩] =
      reassembledSpec 0
        [⟨0, "ida", "function", "alpha", "a"⟩, ⟨1, "idb", "function", "beta", "x"⟩,
         ⟨0, "", "", "", "b"⟩, ⟨1, "", "", "", "y"⟩] ∧
    buildToolCalls
        [⟨0, "ida", "function", "alpha", "a"⟩, ⟨1, "idb", "function", "beta", "x"⟩,
         ⟨0, "", "", "", "b"⟩, ⟨1, "", "", "", "y"⟩] =
      buildToolCalls (singleDelivery (reassembledSpec 0
        [⟨0, "ida", "function", "alpha", "a"⟩, ⟨1, "idb", "function", "beta", "x"⟩,
         ⟨0, "", "", "", "b"⟩, ⟨1, "", "", "", "y"⟩])) :=
  fragment_reassembly_matches_single_delivery _
    (WfFrags.openNew _ _ _ rfl (WfFrags.openNew _ _ _ rfl
      (WfFrags.contFrag _ _ _ (by decide) rfl rfl rfl
        (WfFrags.contFrag _ _ _ (by decide) rfl rfl rfl (WfFrags.nil _)))))

/-- Claim C8, counterexample: the interleaving in which index 1's complete
fragment arrives before index 0's first fragment corrupts reassembly — the
accumulator appends new records at the end of the list regardless of their
index, so index 0's later fragment overwrites index 1's record and the two
tool calls collapse into one record with arguments "BA"; a single
non-fragmented delivery of the same content yields two distinct records.
This refutes the claim's "for every interleaving of fragments across
indices". -/
theorem fragment_reassembly_out_of_order_differs :
    buildToolCalls [⟨1, "idb", "function", "b", "B"⟩, ⟨0, "ida", "function", "a", "A"⟩] =
      [⟨"ida", "function", "a", "BA"⟩] ∧
    buildToolCalls (singleDelivery
        [⟨"ida", "function", "a", "A"⟩, ⟨"idb", "function", "b", "B"⟩]) =
      [⟨"ida", "function", "a", "A"⟩, ⟨"idb", "function", "b", "B"⟩] ∧
    ([(⟨"ida", "function", "a", "BA"⟩ : ToolCallRec)] : List ToolCallRec) ≠
      [⟨"ida", "function", "a", "A"⟩, ⟨"idb", "function", "b", "B"⟩] :=
  ⟨rfl, rfl, by decide⟩

end ChatDesktop
